import Mathlib

/-
Verification of the interval-scheduling core of the Calendar-Management-System
repository: conflict detection (`detectEventConflicts`), alternative-slot
suggestion (`generateAlternativeTimeSlots`), free-time discovery
(`findFreeTimeSlots`), weekly free-pattern detection
(`findRecurringWeeklyPattern`), event validation (`validateEvent`) and the
column-packing layout algorithm (`calculateEventLayout`).

Modelling conventions.
Timestamps are natural numbers counting minutes since an epoch placed at a
Monday 00:00 in the single local time frame the program assumes (no time
zones, no DST).  A calendar day is a block of 1440 minutes, so
`startOfDay`, `isSameDay`, `setHours` and `getHours` of date-fns become
plain arithmetic.  `areIntervalsOverlapping` is modelled with its
`inclusive: false` option and with endpoint order-normalisation as in
current date-fns.  JavaScript numbers used for the layout percentages are
modelled by exact rationals.  Strings and string formatting (`format(d,
'h:mm a')`) are modelled directly.
-/

namespace Cal

/-- Day index of a timestamp (1440 minutes per day; the epoch is a Monday,
so `dayIndex t % 7 = 0` means Monday, as used by `startOfWeek` with
`weekStartsOn: 1`). -/
def dayIndex (t : ℕ) : ℕ := t / 1440

/-- date-fns `startOfDay`, as a timestamp in minutes. -/
def startOfDay (t : ℕ) : ℕ := dayIndex t * 1440

/-- date-fns `isSameDay`: same calendar day. -/
def isSameDay (a b : ℕ) : Bool := dayIndex a == dayIndex b

/-- JavaScript `new Date(d).setHours(h, 0, 0, 0)` applied to a timestamp:
same calendar day, clock set to `h:00`. -/
def setHours (t h : ℕ) : ℕ := startOfDay t + h * 60

/-- JavaScript `Date.prototype.getHours`. -/
def getHours (t : ℕ) : ℕ := t / 60 % 24

/-- The `'morning' | 'afternoon' | 'evening'` tag of a `FreeTimeSlot`. -/
inductive TimeOfDay where
  | morning
  | afternoon
  | evening
deriving DecidableEq

/-- `CalendarEvent` of `CalendarView.types`: id, title, optional
description, a time interval and two opaque display strings. -/
structure CalendarEvent where
  id : String
  title : String
  description : Option String
  startDate : ℕ
  endDate : ℕ
  color : String
  category : String
deriving DecidableEq

/-- `Omit<CalendarEvent, 'id'>`: the candidate event passed to the conflict
detector and the slot suggester. -/
structure NewCalendarEvent where
  title : String
  description : Option String
  startDate : ℕ
  endDate : ℕ
  color : String
  category : String
deriving DecidableEq

/-- `ConflictInfo` of conflict.utils.ts. -/
structure ConflictInfo where
  hasConflict : Bool
  conflictingEvents : List CalendarEvent
  conflictMessage : String
  suggestedTimes : List ℕ
deriving DecidableEq

/-- `FreeTimeSlot` of conflict.utils.ts; the source field `end` is named
`stop` here because `end` is a Lean keyword. -/
structure FreeTimeSlot where
  start : ℕ
  stop : ℕ
  duration : ℕ
  type : TimeOfDay
deriving DecidableEq

/-- `FreeTimeFinderResult` of conflict.utils.ts. -/
structure FreeTimeFinderResult where
  longestFreeBlock : Option FreeTimeSlot
  nextAvailableHour : Option FreeTimeSlot
  recurringWeeklyPattern : List FreeTimeSlot
  allFreeSlots : List FreeTimeSlot
deriving DecidableEq

/-- date-fns `areIntervalsOverlapping` with `inclusive: false`: strict
overlap of the order-normalised intervals. -/
def areIntervalsOverlapping (s1 e1 s2 e2 : ℕ) : Bool :=
  decide (min s1 e1 < max s2 e2) && decide (min s2 e2 < max s1 e1)

/-- The exclusion guard of `detectEventConflicts`:
`excludeEventId && event.id === excludeEventId`.  The JavaScript truthiness
test means a missing or empty `excludeEventId` never excludes anything. -/
def isExcluded (excl : Option String) (evId : String) : Bool :=
  match excl with
  | none => false
  | some s => !(s == "") && (evId == s)

/-- The filter of `detectEventConflicts` (lines 47-57): events that pass the
exclusion guard and strictly overlap the candidate, kept in input order. -/
def conflictingEventsOf (newEvent : NewCalendarEvent) (existingEvents : List CalendarEvent)
    (excludeEventId : Option String) : List CalendarEvent :=
  existingEvents.filter fun event =>
    if isExcluded excludeEventId event.id then false
    else areIntervalsOverlapping newEvent.startDate newEvent.endDate event.startDate event.endDate

/-- The `hasConflict` flag: `conflictingEvents.length > 0`. -/
def hasConflictB (newEvent : NewCalendarEvent) (existingEvents : List CalendarEvent)
    (excludeEventId : Option String) : Bool :=
  decide (0 < (conflictingEventsOf newEvent existingEvents excludeEventId).length)

/-- Two-digit minute field of date-fns `format(d, 'h:mm a')`. -/
def pad2 (n : ℕ) : String :=
  if n < 10 then "0" ++ toString n else toString n

/-- date-fns `format(d, 'h:mm a')` (12-hour clock, `AM`/`PM`). -/
def formatHmma (t : ℕ) : String :=
  let h := getHours t
  let h12 := if h % 12 == 0 then 12 else h % 12
  toString h12 ++ ":" ++ pad2 (t % 60) ++ " " ++ (if h < 12 then "AM" else "PM")

/-- The template `${format(start, 'h:mm a')}–${format(end, 'h:mm a')}`. -/
def timeRangeOf (ev : CalendarEvent) : String :=
  formatHmma ev.startDate ++ "–" ++ formatHmma ev.endDate

/-- The `conflictMessage` construction of `detectEventConflicts`
(lines 61-73): empty without conflicts, otherwise built from
`conflictingEvents[0]` — the first conflicting event in input order. -/
def conflictMessageOf (newEvent : NewCalendarEvent) (existingEvents : List CalendarEvent)
    (excludeEventId : Option String) : String :=
  match conflictingEventsOf newEvent existingEvents excludeEventId with
  | [] => ""
  | firstConflict :: rest =>
    let timeRange := timeRangeOf firstConflict
    if rest.isEmpty then
      "You already have \"" ++ firstConflict.title ++ "\" from " ++ timeRange
    else
      "You have " ++ toString (rest.length + 1) ++ " conflicting events starting with \"" ++
        firstConflict.title ++ "\" at " ++ timeRange

/-- The scan loop of `generateAlternativeTimeSlots` (lines 106-131): walk the
30-minute grid while `currentSlot < businessEnd`; a probe is accepted when it
fits before `businessEnd` and its conflict check is negative; `room` is how
many acceptances remain before the `suggestions.length >= 3` break.  The
conflict check reads only the `hasConflict` field of the nested
`detectEventConflicts` call, which is `hasConflictB` (see
`detectEventConflicts` below for the recursion this breaks). -/
def altScan (cand : NewCalendarEvent) (evs : List CalendarEvent) (excl : Option String)
    (businessEnd eventDuration : ℕ) (currentSlot room : ℕ) : List ℕ :=
  if h : currentSlot < businessEnd then
    if currentSlot + eventDuration ≤ businessEnd then
      if hasConflictB { cand with startDate := currentSlot, endDate := currentSlot + eventDuration } evs excl then
        altScan cand evs excl businessEnd eventDuration (currentSlot + 30) room
      else if room ≤ 1 then [currentSlot]
      else currentSlot :: altScan cand evs excl businessEnd eventDuration (currentSlot + 30) (room - 1)
    else altScan cand evs excl businessEnd eventDuration (currentSlot + 30) room
  else []
termination_by businessEnd - currentSlot
decreasing_by
  all_goals omega

/-- `generateAlternativeTimeSlots` (lines 90-134): scan the business-hours
window `[08:00, 18:00)` of the candidate's day in 30-minute steps,
collecting at most 3 conflict-free start times for the candidate's
duration. -/
def generateAlternativeTimeSlots (newEvent : NewCalendarEvent) (existingEvents : List CalendarEvent)
    (excludeEventId : Option String) : List ℕ :=
  let eventDuration := newEvent.endDate - newEvent.startDate
  let businessStart := setHours newEvent.startDate 8
  let businessEnd := setHours newEvent.startDate 18
  altScan newEvent existingEvents excludeEventId businessEnd eventDuration businessStart 3

/-- `detectEventConflicts` (lines 42-85).  In the source this function and
`generateAlternativeTimeSlots` are eagerly mutually recursive: the
`suggestedTimes` field is computed by `generateAlternativeTimeSlots`, whose
probe loop calls `detectEventConflicts` again but reads only its
`hasConflict` field.  Because `hasConflict` never depends on
`suggestedTimes`, this definition breaks the recursion by giving the probe
loop the (equal) `hasConflictB` value directly; it therefore denotes the
value the source computes whenever the source's recursion terminates.  The
divergence of the source's recursion itself is modelled separately by
`generateFuel` below. -/
def detectEventConflicts (newEvent : NewCalendarEvent) (existingEvents : List CalendarEvent)
    (excludeEventId : Option String) : ConflictInfo :=
  let conflictingEvents := conflictingEventsOf newEvent existingEvents excludeEventId
  { hasConflict := decide (0 < conflictingEvents.length)
    conflictingEvents := conflictingEvents
    conflictMessage := conflictMessageOf newEvent existingEvents excludeEventId
    suggestedTimes :=
      if decide (0 < conflictingEvents.length) then
        generateAlternativeTimeSlots newEvent existingEvents excludeEventId
      else [] }

/-- The 20 probe start times `businessStart, businessStart + 30, ...` that
the `while (currentSlot < businessEnd)` loop of
`generateAlternativeTimeSlots` visits (`base` is the candidate day's
`startOfDay`; the window is 600 minutes, hence exactly 20 steps). -/
def probeGrid (base : ℕ) : List ℕ :=
  (List.range 20).map fun k => base + 480 + 30 * k

/-- One pass of the probe loop of `generateAlternativeTimeSlots`, with the
nested `detectEventConflicts` call made explicit: for a conflicting probe the
source first computes that call's `suggestedTimes` — i.e. runs the whole
suggester again on the probe — before it can read `hasConflict` and skip the
probe.  `nested` performs that inner run; `none` means it diverged, and then
the whole scan diverges. -/
def genScanF (nested : NewCalendarEvent → Option (List ℕ)) (cand : NewCalendarEvent)
    (evs : List CalendarEvent) (excl : Option String) (businessEnd eventDuration : ℕ) :
    List ℕ → ℕ → Option (List ℕ)
  | [], _ => some []
  | p :: rest, room =>
    if p + eventDuration ≤ businessEnd then
      if hasConflictB { cand with startDate := p, endDate := p + eventDuration } evs excl then
        match nested { cand with startDate := p, endDate := p + eventDuration } with
        | none => none
        | some _ => genScanF nested cand evs excl businessEnd eventDuration rest room
      else if room ≤ 1 then some [p]
      else (genScanF nested cand evs excl businessEnd eventDuration rest (room - 1)).map (p :: ·)
    else genScanF nested cand evs excl businessEnd eventDuration rest room

/-- `generateAlternativeTimeSlots` with the source's actual mutual recursion
through `detectEventConflicts`, bounded by a fuel counting the nesting depth
of suggester runs; `none` means the depth bound was hit, so
`(∀ fuel, generateFuel fuel ... = none)` says the source call never
returns (in JavaScript: a stack overflow). -/
def generateFuel : ℕ → NewCalendarEvent → List CalendarEvent → Option String → Option (List ℕ)
  | 0, _, _, _ => none
  | fuel + 1, cand, evs, excl =>
    genScanF (fun t => generateFuel fuel t evs excl) cand evs excl
      (setHours cand.startDate 18) (cand.endDate - cand.startDate)
      (probeGrid (startOfDay cand.startDate)) 3

/-- `getTimeOfDayType` (lines 280-285). -/
def getTimeOfDayType (time : ℕ) : TimeOfDay :=
  let hour := getHours time
  if hour < 12 then .morning
  else if hour < 17 then .afternoon
  else .evening

/-- The sort relation used by `sortEventsByStartTime` and by the
`findFreeTimeSlots` day sort: comparator `(a, b) => a.startDate - b.startDate`. -/
def leStart (a b : CalendarEvent) : Prop := a.startDate ≤ b.startDate

instance : DecidableRel leStart := fun a b => Nat.decLe a.startDate b.startDate

instance : IsTotal CalendarEvent leStart := ⟨fun a b => Nat.le_total a.startDate b.startDate⟩

instance : IsTrans CalendarEvent leStart := ⟨fun _ _ _ h1 h2 => Nat.le_trans h1 h2⟩

/-- `sortEventsByStartTime` of event.utils.ts (lines 501-503); `Array.sort`
is a stable sort keyed on `startDate`, modelled by insertion sort. -/
def sortEventsByStartTime (events : List CalendarEvent) : List CalendarEvent :=
  List.insertionSort leStart events

/-- The ternary `event.startDate < businessStart ? businessStart : event.startDate`
of `findFreeTimeSlots` (line 163). -/
def clampStart (businessStart : ℕ) (ev : CalendarEvent) : ℕ :=
  if ev.startDate < businessStart then businessStart else ev.startDate

/-- The ternary `event.endDate > businessEnd ? businessEnd : event.endDate`
of `findFreeTimeSlots` (line 164). -/
def clampEnd (businessEnd : ℕ) (ev : CalendarEvent) : ℕ :=
  if businessEnd < ev.endDate then businessEnd else ev.endDate

/-- The `FreeTimeSlot` record pushed by `findFreeTimeSlots`. -/
def freeSlotMk (s e : ℕ) : FreeTimeSlot :=
  { start := s, stop := e, duration := e - s, type := getTimeOfDayType s }

/-- The gap-finding loop of `findFreeTimeSlots` (lines 162-180): walk the
day's sorted events, emitting the gap before each event when it is at least
`minD` long, and advancing the cursor to the event's clamped end; returns
the emitted slots and the final cursor (`currentTime`). -/
def walk (bS bE minD : ℕ) : ℕ → List CalendarEvent → List FreeTimeSlot × ℕ
  | currentTime, [] => ([], currentTime)
  | currentTime, event :: rest =>
    let eventStart := clampStart bS event
    let eventEnd := clampEnd bE event
    let emitted :=
      if currentTime < eventStart ∧ minD ≤ eventStart - currentTime then
        [freeSlotMk currentTime eventStart]
      else []
    let next := if currentTime < eventEnd then eventEnd else currentTime
    let rec1 := walk bS bE minD next rest
    (emitted ++ rec1.1, rec1.2)

/-- The fixed probe list of `findRecurringWeeklyPattern` (lines 228-235),
as pairs of start/end hours (the display labels are unused). -/
def timeSlotProbes : List (ℕ × ℕ) :=
  [(9, 10), (10, 11), (11, 12), (14, 15), (15, 16), (16, 17)]

/-- date-fns `eachDayOfInterval(startOfWeek(ref, Monday), endOfWeek(ref, Monday))`,
as day indices (the epoch is a Monday, so the week start is the greatest
multiple of 7 below the day index). -/
def weekDays (referenceDate : ℕ) : List ℕ :=
  let w0 := dayIndex referenceDate - dayIndex referenceDate % 7
  (List.range 7).map fun i => w0 + i

/-- The per-day conflict test of `findRecurringWeeklyPattern` (lines 247-253):
the probe interval on day `d` against every event in the whole list. -/
def probeHasConflict (events : List CalendarEvent) (d : ℕ) (p : ℕ × ℕ) : Bool :=
  events.any fun event =>
    areIntervalsOverlapping (d * 1440 + p.1 * 60) (d * 1440 + p.2 * 60)
      event.startDate event.endDate

/-- The sample `FreeTimeSlot` recorded for a probe on day `d` (lines 258-263). -/
def probeSlotMk (d : ℕ) (p : ℕ × ℕ) : FreeTimeSlot :=
  { start := d * 1440 + p.1 * 60, stop := d * 1440 + p.2 * 60, duration := 60,
    type := getTimeOfDayType (d * 1440 + p.1 * 60) }

/-- The inner loop of `findRecurringWeeklyPattern` over the week's days
(lines 241-266): counts the conflict-free days and remembers the first
conflict-free day's slot. -/
def weekScan (events : List CalendarEvent) (days : List ℕ) (p : ℕ × ℕ) :
    ℕ × Option FreeTimeSlot :=
  days.foldl
    (fun st day =>
      if probeHasConflict events day p then st
      else
        (st.1 + 1, match st.2 with
          | none => some (probeSlotMk day p)
          | some s => some s))
    (0, none)

/-- `findRecurringWeeklyPattern` (lines 217-275): a probe is emitted when it
is conflict-free on at least 4 days of the Monday-Sunday week, anchored to
the sample slot. -/
def findRecurringWeeklyPattern (events : List CalendarEvent) (referenceDate : ℕ) :
    List FreeTimeSlot :=
  timeSlotProbes.filterMap fun p =>
    let st := weekScan events (weekDays referenceDate) p
    match st.2 with
    | some sampleSlot => if 4 ≤ st.1 then some sampleSlot else none
    | none => none

/-- `findFreeTimeSlots` (lines 139-212). -/
def findFreeTimeSlots (events : List CalendarEvent) (targetDate : ℕ)
    (minDuration : ℕ) : FreeTimeFinderResult :=
  let businessStart := setHours targetDate 8
  let businessEnd := setHours targetDate 18
  let dayEvents :=
    sortEventsByStartTime (events.filter fun event => isSameDay event.startDate targetDate)
  let walked := walk businessStart businessEnd minDuration businessStart dayEvents
  let trailing :=
    if walked.2 < businessEnd ∧ minDuration ≤ businessEnd - walked.2 then
      [freeSlotMk walked.2 businessEnd]
    else []
  let freeSlots := walked.1 ++ trailing
  let longestFreeBlock :=
    freeSlots.foldl
      (fun longest current =>
        match longest with
        | none => some current
        | some l => if l.duration < current.duration then some current else some l)
      none
  let nextAvailableHour := freeSlots.find? fun slot => 60 ≤ slot.duration
  { longestFreeBlock := longestFreeBlock
    nextAvailableHour := nextAvailableHour
    recurringWeeklyPattern := findRecurringWeeklyPattern events targetDate
    allFreeSlots := freeSlots }

/-- `LayoutEvent` of event.utils.ts: an event with its column geometry.  The
source computes `width` and `left` as CSS percentages (`100 / columns.length`
and `columnIndex * 100 / columns.length`); JavaScript numbers are modelled
by exact rationals. -/
structure LayoutEvent extends CalendarEvent where
  width : ℚ
  left : ℚ
deriving DecidableEq

/-- The column-acceptance test of `calculateEventLayout` (line 558):
`!lastEventInColumn || event.startDate >= lastEventInColumn.endDate`. -/
def lastEventOk (ev : CalendarEvent) (column : List CalendarEvent) : Bool :=
  match column.getLast? with
  | none => true
  | some lastEv => decide (lastEv.endDate ≤ ev.startDate)

/-- The placement scan of `calculateEventLayout` (lines 552-563): append the
event to the first column whose last event ends no later than the event
starts; `none` when no column accepts it. -/
def placeInColumns (ev : CalendarEvent) : List (List CalendarEvent) →
    Option (List (List CalendarEvent))
  | [] => none
  | column :: rest =>
    if lastEventOk ev column then some ((column ++ [ev]) :: rest)
    else (placeInColumns ev rest).map (column :: ·)

/-- One iteration of the `sortedEvents.forEach` placement loop (lines 548-569):
place into an existing column or open a new one. -/
def placeEvent (columns : List (List CalendarEvent)) (ev : CalendarEvent) :
    List (List CalendarEvent) :=
  (placeInColumns ev columns).getD (columns ++ [[ev]])

/-- The final column list of `calculateEventLayout` for an event list. -/
def columnsOf (events : List CalendarEvent) : List (List CalendarEvent) :=
  (sortEventsByStartTime events).foldl placeEvent []

/-- The `columns.forEach((column, columnIndex) => ...)` rendering loop
(lines 574-582): every event of column `columnIndex` gets
`width = 100 / total` and `left = columnIndex * 100 / total`. -/
def renderColumns (total : ℕ) : ℕ → List (List CalendarEvent) → List LayoutEvent
  | _, [] => []
  | columnIndex, column :: rest =>
    (column.map fun ev =>
      { toCalendarEvent := ev
        width := 100 / (total : ℚ)
        left := ((columnIndex : ℚ) * 100) / (total : ℚ) }) ++
      renderColumns total (columnIndex + 1) rest

/-- `calculateEventLayout` (lines 542-585). -/
def calculateEventLayout (events : List CalendarEvent) : List LayoutEvent :=
  let columns := columnsOf events
  renderColumns columns.length 0 columns

/-- `Partial<CalendarEvent>`: every field optional, as passed to
`validateEvent`. -/
structure PartialCalendarEvent where
  id : Option String
  title : Option String
  description : Option String
  startDate : Option ℕ
  endDate : Option ℕ
  color : Option String
  category : Option String
deriving DecidableEq

/-- `validateEvent` of event.utils.ts (lines 587-615): collects human-readable
error strings; `!event.title?.trim()` is the JavaScript truthiness test on
the trimmed title, and a `Date` object is always truthy, so the date checks
test only for presence. -/
def validateEvent (event : PartialCalendarEvent) : List String :=
  (if (match event.title with | none => true | some s => s.trim == "") then
    ["Title is required"] else []) ++
  (if (match event.title with | none => false | some s => !(s == "") && decide (100 < s.length)) then
    ["Title must be 100 characters or less"] else []) ++
  (if (match event.description with | none => false | some s => !(s == "") && decide (500 < s.length)) then
    ["Description must be 500 characters or less"] else []) ++
  (if event.startDate.isNone then ["Start date is required"] else []) ++
  (if event.endDate.isNone then ["End date is required"] else []) ++
  (if (match event.startDate, event.endDate with
      | some s, some e => decide (e ≤ s)
      | _, _ => false) then
    ["End date must be after start date"] else [])

/-- The zero-duration candidate used against C5. -/
def c5Cand : NewCalendarEvent := ⟨"Zero", none, 600, 600, "", ""⟩

/-- The filter described verbatim by C10: keep the events that strictly
overlap the candidate and whose id differs from `excludeId`. -/
def c10StatedFilter (cand : NewCalendarEvent) (evs : List CalendarEvent)
    (excl : Option String) : List CalendarEvent :=
  evs.filter fun ev =>
    areIntervalsOverlapping cand.startDate cand.endDate ev.startDate ev.endDate &&
      !(excl == some ev.id)

/-- The overlapping event with the empty id used against C10. -/
def c10Ev : CalendarEvent := ⟨"", "Anon", none, 840, 900, "", ""⟩

/-- The candidate used against C10. -/
def c10Cand : NewCalendarEvent := ⟨"Meet", none, 840, 900, "", ""⟩

/-- The candidate of the C4 scenario, 14:00-15:00. -/
def c4Cand : NewCalendarEvent := ⟨"Meet", none, 840, 900, "", ""⟩

/-- A conflicting event starting 14:00. -/
def c4X : CalendarEvent := ⟨"x", "X", none, 840, 900, "", ""⟩

/-- A conflicting event starting 13:30 — the earliest-starting conflict. -/
def c4Y : CalendarEvent := ⟨"y", "Y", none, 810, 900, "", ""⟩

/-- The characterisation claimed by C6: a probe is emitted iff it is
conflict-free on at least 4 of the 7 Monday-Sunday week days, anchored to
the earliest conflict-free day (`find?` on the chronologically ascending
week days), in fixed probe order. -/
def recurringPatternSpec (events : List CalendarEvent) (referenceDate : ℕ) :
    List FreeTimeSlot :=
  timeSlotProbes.filterMap fun p =>
    if 4 ≤ (weekDays referenceDate).countP (fun d => !probeHasConflict events d p) then
      ((weekDays referenceDate).find? fun d => !probeHasConflict events d p).map
        fun d => probeSlotMk d p
    else none

/-- The three mutually overlapping events of the C3 scenario. -/
def c3E1 : CalendarEvent := ⟨"1", "A", none, 600, 690, "", ""⟩

/-- Second overlapping event, starting 10:30. -/
def c3E2 : CalendarEvent := ⟨"2", "B", none, 630, 690, "", ""⟩

/-- Third overlapping event, starting 10:45. -/
def c3E3 : CalendarEvent := ⟨"3", "C", none, 645, 690, "", ""⟩

/-- Membership test of a point in a free slot, for coverage counting. -/
def inSlot (t : ℕ) (s : FreeTimeSlot) : Bool :=
  decide (s.start ≤ t) && decide (t < s.stop)

/-- Membership test of a point in the business-hours-clamped interval of an
event, exactly as `findFreeTimeSlots` clamps (lines 163-164). -/
def inClampedEvent (bS bE t : ℕ) (ev : CalendarEvent) : Bool :=
  decide (clampStart bS ev ≤ t) && decide (t < clampEnd bE ev)

/-- How often a point of the target day is covered by the free slots of
`findFreeTimeSlots` plus the clamped intervals of that day's events. -/
def coverCount (events : List CalendarEvent) (targetDate minDuration t : ℕ) : ℕ :=
  (findFreeTimeSlots events targetDate minDuration).allFreeSlots.countP (inSlot t) +
    (events.filter fun ev => isSameDay ev.startDate targetDate).countP
      (inClampedEvent (setHours targetDate 8) (setHours targetDate 18) t)

/-- The first event of the C1 counterexample, 08:00-10:00. -/
def c1A : CalendarEvent := ⟨"a", "A", none, 480, 600, "", ""⟩

/-- The second event of the C1 counterexample, 10:30-11:00. -/
def c1B : CalendarEvent := ⟨"b", "B", none, 630, 660, "", ""⟩

/-- The well-formed pair of events of the C8 witness. -/
def c8P : CalendarEvent := ⟨"p", "P", none, 540, 600, "", ""⟩

/-- Second event of the C8 witness. -/
def c8Q : CalendarEvent := ⟨"q", "Q", none, 600, 660, "", ""⟩

/-- An event violating the `start < end` invariant (10:00 back to 09:00). -/
def c8Bad : CalendarEvent := ⟨"bad", "Backwards", none, 600, 540, "", ""⟩

/-- A valid event sharing the invalid event's start time. -/
def c8Good : CalendarEvent := ⟨"good", "Long", none, 600, 720, "", ""⟩

/-- The conflicting candidate of the C2 failing input: 08:00-09:00. -/
def c2Cand : NewCalendarEvent := ⟨"Focus", none, 480, 540, "", ""⟩

/-- The existing event of the C2 failing input: 08:30-17:30, overlapping
every 60-minute probe of the day's grid including the first one. -/
def c2Busy : CalendarEvent := ⟨"busy", "All Day Work", none, 510, 1050, "", ""⟩

/-! Theorems. -/

/-- C9: every `ConflictInfo` returned by `detectEventConflicts` has
`hasConflict = true` iff `conflictingEvents` is non-empty, and when
`hasConflict` is false both `suggestedTimes` and `conflictMessage` are
empty. -/
theorem c9_conflict_info_invariant (newEvent : NewCalendarEvent)
    (existingEvents : List CalendarEvent) (excludeEventId : Option String) :
    ((detectEventConflicts newEvent existingEvents excludeEventId).hasConflict = true ↔
      (detectEventConflicts newEvent existingEvents excludeEventId).conflictingEvents ≠ []) ∧
    ((detectEventConflicts newEvent existingEvents excludeEventId).hasConflict = false →
      (detectEventConflicts newEvent existingEvents excludeEventId).suggestedTimes = [] ∧
      (detectEventConflicts newEvent existingEvents excludeEventId).conflictMessage = "") := by
  constructor
  · simp [detectEventConflicts, List.length_pos]
  · intro h
    have hlen : ¬ 0 < (conflictingEventsOf newEvent existingEvents excludeEventId).length := by
      simpa [detectEventConflicts] using h
    have hnil : conflictingEventsOf newEvent existingEvents excludeEventId = [] := by
      cases hh : conflictingEventsOf newEvent existingEvents excludeEventId with
      | nil => rfl
      | cons a t => rw [hh] at hlen; simp at hlen
    refine ⟨?_, ?_⟩
    · simp [detectEventConflicts, hnil]
    · simp [detectEventConflicts, conflictMessageOf, hnil]

/-- Concrete instantiation of `c9_conflict_info_invariant`: a conflict-free
candidate yields no suggestions and an empty message. -/
theorem c9_witness :
    (detectEventConflicts ⟨"Solo", none, 600, 660, "", ""⟩ [] none).suggestedTimes = [] ∧
    (detectEventConflicts ⟨"Solo", none, 600, 660, "", ""⟩ [] none).conflictMessage = "" :=
  (c9_conflict_info_invariant ⟨"Solo", none, 600, 660, "", ""⟩ [] none).2 (by decide)

/-- C5 counterexample: a candidate with `start = end` (hence `start >= end`)
is not rejected — `detectEventConflicts` silently returns the empty/default
`ConflictInfo`. -/
theorem c5_counterexample :
    c5Cand.endDate ≤ c5Cand.startDate ∧
    detectEventConflicts c5Cand [] none =
      { hasConflict := false, conflictingEvents := [], conflictMessage := "",
        suggestedTimes := [] } := by
  decide

/-- C5 amended: `detectEventConflicts` performs no input validation — on a
candidate with `start >= end` and no events it returns the plain default
result — while the separate `validateEvent` function is what flags
`start >= end`, with the error string `End date must be after start date`. -/
theorem c5_validation_is_separate (pid ptitle pdesc pcolor pcat : Option String)
    (t : String) (d : Option String) (c g : String) (s e : ℕ) (h : e ≤ s)
    (excl : Option String) :
    "End date must be after start date" ∈
      validateEvent ⟨pid, ptitle, pdesc, some s, some e, pcolor, pcat⟩ ∧
    detectEventConflicts ⟨t, d, s, e, c, g⟩ [] excl =
      { hasConflict := false, conflictingEvents := [], conflictMessage := "",
        suggestedTimes := [] } := by
  constructor
  · simp [validateEvent, h]
  · rfl

/-- Concrete instantiation of `c5_validation_is_separate`. -/
theorem c5_witness :
    "End date must be after start date" ∈
      validateEvent ⟨none, some "Standup", none, some 660, some 600, none, none⟩ :=
  (c5_validation_is_separate none (some "Standup") none none none "Standup" none "" ""
    660 600 (by decide) none).1

/-- C10 counterexample: with `excludeEventId = some ""` and an overlapping
event whose id is `""`, the code keeps the event (the JavaScript truthiness
guard skips exclusion for an empty string), while the claim's filter —
events whose id differs from `excludeId` — would drop it. -/
theorem c10_counterexample :
    (detectEventConflicts c10Cand [c10Ev] (some "")).conflictingEvents = [c10Ev] ∧
    c10StatedFilter c10Cand [c10Ev] (some "") = [] := by
  decide

/-- C10 amended: `conflictingEvents` is exactly the subsequence of
`existingEvents`, in input order, of events that strictly overlap the
candidate and are not excluded — where an event is excluded only when
`excludeId` is present, non-empty, and equal to the event's id. -/
theorem c10_conflicting_events_filter (cand : NewCalendarEvent)
    (evs : List CalendarEvent) (excl : Option String) :
    (detectEventConflicts cand evs excl).conflictingEvents =
      evs.filter (fun ev =>
        (match excl with
          | none => true
          | some s => if s = "" then true else decide (s ≠ ev.id)) &&
        areIntervalsOverlapping cand.startDate cand.endDate ev.startDate ev.endDate) ∧
    List.Sublist (detectEventConflicts cand evs excl).conflictingEvents evs := by
  constructor
  · show conflictingEventsOf cand evs excl = _
    unfold conflictingEventsOf
    apply List.filter_congr
    intro ev _
    cases excl with
    | none => simp [isExcluded]
    | some s =>
      by_cases hs : s = ""
      · simp [isExcluded, hs]
      · by_cases hid : ev.id = s
        · simp [isExcluded, hs, hid]
        · simp [isExcluded, hs, hid, Ne.symm hid]
  · show List.Sublist (conflictingEventsOf cand evs excl) evs
    exact List.filter_sublist evs

/-- C4 counterexample: with the same two conflicting events supplied in the
two orders, the message changes — so it does not name the earliest-starting
conflict regardless of input order (with `[X, Y]` it names `X`, which starts
later than `Y`). -/
theorem c4_counterexample :
    c4Y.startDate < c4X.startDate ∧
    (detectEventConflicts c4Cand [c4X, c4Y] none).conflictMessage =
      "You have 2 conflicting events starting with \"X\" at 2:00 PM–3:00 PM" ∧
    (detectEventConflicts c4Cand [c4X, c4Y] none).conflictMessage ≠
      (detectEventConflicts c4Cand [c4Y, c4X] none).conflictMessage := by
  decide

/-- C4 amended: with two or more conflicts the message names the first
conflicting event in the order `existingEvents` was supplied (which is the
earliest-starting one only when the input happens to be sorted), together
with the total conflict count. -/
theorem c4_message_names_first_input_conflict (cand : NewCalendarEvent)
    (evs : List CalendarEvent) (excl : Option String)
    (e : CalendarEvent) (es : List CalendarEvent)
    (hce : (detectEventConflicts cand evs excl).conflictingEvents = e :: es)
    (hne : es ≠ []) :
    (detectEventConflicts cand evs excl).conflictMessage =
      "You have " ++ toString (es.length + 1) ++
        " conflicting events starting with \"" ++ e.title ++ "\" at " ++ timeRangeOf e := by
  have hc : conflictingEventsOf cand evs excl = e :: es := hce
  show conflictMessageOf cand evs excl = _
  cases es with
  | nil => exact absurd rfl hne
  | cons b bs => simp [conflictMessageOf, hc]

/-- Concrete instantiation of `c4_message_names_first_input_conflict`. -/
theorem c4_witness :
    (detectEventConflicts c4Cand [c4X, c4Y] none).conflictMessage =
      "You have 2 conflicting events starting with \"X\" at 2:00 PM–3:00 PM" := by
  have h := c4_message_names_first_input_conflict c4Cand [c4X, c4Y] none c4X [c4Y]
    (by decide) (by decide)
  rw [h]; decide

/-- The week fold of `findRecurringWeeklyPattern` computes the number of
conflict-free days and the slot of the first conflict-free day. -/
theorem weekScan_eq (events : List CalendarEvent) (p : ℕ × ℕ) :
    ∀ (days : List ℕ) (n : ℕ) (smp : Option FreeTimeSlot),
      days.foldl
        (fun st day =>
          if probeHasConflict events day p then st
          else
            (st.1 + 1, match st.2 with
              | none => some (probeSlotMk day p)
              | some s => some s))
        (n, smp) =
      (n + days.countP (fun d => !probeHasConflict events d p),
        match smp with
        | some s => some s
        | none =>
          (days.find? fun d => !probeHasConflict events d p).map fun d => probeSlotMk d p) := by
  intro days
  induction days with
  | nil =>
    intro n smp
    cases smp <;> simp
  | cons d rest ih =>
    intro n smp
    by_cases hd : probeHasConflict events d p
    · cases smp <;>
        simp [hd, List.foldl_cons, ih, List.countP_cons, List.find?]
    · cases smp <;>
        simp [hd, List.foldl_cons, ih, List.countP_cons, List.find?] <;> omega

/-- `findRecurringWeeklyPattern` equals its claimed characterisation. -/
theorem recurring_eq_spec (events : List CalendarEvent) (referenceDate : ℕ) :
    findRecurringWeeklyPattern events referenceDate =
      recurringPatternSpec events referenceDate := by
  unfold findRecurringWeeklyPattern recurringPatternSpec
  have hfun : ∀ p : ℕ × ℕ,
      (match (weekScan events (weekDays referenceDate) p).2 with
        | some sampleSlot =>
          if 4 ≤ (weekScan events (weekDays referenceDate) p).1 then some sampleSlot else none
        | none => none) =
      (if 4 ≤ (weekDays referenceDate).countP (fun d => !probeHasConflict events d p) then
        ((weekDays referenceDate).find? fun d => !probeHasConflict events d p).map
          fun d => probeSlotMk d p
      else none) := by
    intro p
    rw [show weekScan events (weekDays referenceDate) p =
        ((weekDays referenceDate).countP (fun d => !probeHasConflict events d p),
          ((weekDays referenceDate).find? fun d => !probeHasConflict events d p).map
            fun d => probeSlotMk d p) from by
      simpa [weekScan] using weekScan_eq events p (weekDays referenceDate) 0 none]
    cases hf : (weekDays referenceDate).find? fun d => !probeHasConflict events d p with
    | none => simp
    | some d0 =>
      by_cases h4 : (4 ≤ (weekDays referenceDate).countP fun d => !probeHasConflict events d p)
      · simp [h4]
      · simp [h4]
  exact congrArg (fun f => List.filterMap f timeSlotProbes) (funext fun p => hfun p)

/-- C6: `findRecurringWeeklyPattern` emits a probe slot iff the probe is
conflict-free on at least 4 of the 7 Monday-Sunday week days, anchors it to
the earliest conflict-free day of that week, and lists probes in the fixed
chronological probe order. -/
theorem c6_recurring_weekly_pattern (events : List CalendarEvent) (referenceDate : ℕ) :
    findRecurringWeeklyPattern events referenceDate =
      recurringPatternSpec events referenceDate :=
  recurring_eq_spec events referenceDate

/-- `placeInColumns` never changes the number of columns. -/
theorem placeInColumns_length (ev : CalendarEvent) :
    ∀ (cols cols2 : List (List CalendarEvent)),
      placeInColumns ev cols = some cols2 → cols2.length = cols.length := by
  intro cols
  induction cols with
  | nil => intro cols2 h; simp [placeInColumns] at h
  | cons column rest ih =>
    intro cols2 h
    by_cases hc : lastEventOk ev column
    · simp [placeInColumns, hc] at h
      simp [← h]
    · simp [placeInColumns, hc] at h
      obtain ⟨cs, hcs, rfl⟩ := h
      simp [ih cs hcs]

/-- `placeEvent` keeps or grows the number of columns. -/
theorem placeEvent_length_le (cols : List (List CalendarEvent)) (ev : CalendarEvent) :
    cols.length ≤ (placeEvent cols ev).length := by
  unfold placeEvent
  cases hp : placeInColumns ev cols with
  | none => simp
  | some cols2 => simp [placeInColumns_length ev cols cols2 hp]

/-- Folding `placeEvent` keeps or grows the number of columns. -/
theorem foldl_placeEvent_length_le :
    ∀ (l : List CalendarEvent) (cols : List (List CalendarEvent)),
      cols.length ≤ (l.foldl placeEvent cols).length := by
  intro l
  induction l with
  | nil => intro cols; simp
  | cons a t ih =>
    intro cols
    calc cols.length ≤ (placeEvent cols a).length := placeEvent_length_le cols a
      _ ≤ ((a :: t).foldl placeEvent cols).length := by simpa using ih (placeEvent cols a)

/-- A non-empty event list yields at least one column. -/
theorem columnsOf_length_pos (events : List CalendarEvent) (hne : events ≠ []) :
    0 < (columnsOf events).length := by
  unfold columnsOf
  have hlen : (sortEventsByStartTime events).length = events.length :=
    (List.perm_insertionSort leStart events).length_eq
  cases hs : sortEventsByStartTime events with
  | nil =>
    rw [hs] at hlen
    have := List.length_pos.mpr hne
    simp at hlen
    omega
  | cons a t =>
    have h1 : placeEvent [] a = [[a]] := rfl
    calc 0 < ([[a]] : List (List CalendarEvent)).length := by simp
      _ ≤ (t.foldl placeEvent [[a]]).length := foldl_placeEvent_length_le t [[a]]
      _ = ((a :: t).foldl placeEvent []).length := by simp [h1]

/-- Every event rendered by `renderColumns` carries the uniform width
`100 / total` and the offset `columnIndex * 100 / total` of its column. -/
theorem renderColumns_mem (total : ℕ) :
    ∀ (cols : List (List CalendarEvent)) (i : ℕ) (lev : LayoutEvent),
      lev ∈ renderColumns total i cols →
      ∃ j, i ≤ j ∧ j < i + cols.length ∧
        lev.width = 100 / (total : ℚ) ∧ lev.left = ((j : ℚ) * 100) / (total : ℚ) := by
  intro cols
  induction cols with
  | nil => intro i lev h; simp [renderColumns] at h
  | cons column rest ih =>
    intro i lev h
    rw [renderColumns] at h
    rcases List.mem_append.mp h with hl | hr
    · obtain ⟨ev, _, rfl⟩ := List.mem_map.mp hl
      exact ⟨i, le_refl i, by simp, rfl, rfl⟩
    · obtain ⟨j, hij, hjlt, hw, hleft⟩ := ih (i + 1) lev hr
      exact ⟨j, by omega, by simp at hjlt ⊢; omega, hw, hleft⟩

/-- C3 amended: for a non-empty one-day event list, every produced
`LayoutEvent` has `width = 100 / totalColumns` (a CSS percentage) and
`left = columnIndex * 100 / totalColumns` with `columnIndex < totalColumns`;
dividing by 100 gives exactly the claimed fractions `1 / totalColumns` and
`columnIndex / totalColumns`, and those quotients lie in `[0, 1]`. -/
theorem c3_layout_fractions (events : List CalendarEvent) (d : ℕ)
    (hne : events ≠ []) (_hday : ∀ ev ∈ events, isSameDay ev.startDate d = true) :
    ∀ lev ∈ calculateEventLayout events,
      ∃ j, j < (columnsOf events).length ∧
        lev.width = 100 / ((columnsOf events).length : ℚ) ∧
        lev.left = ((j : ℚ) * 100) / ((columnsOf events).length : ℚ) ∧
        lev.width / 100 = 1 / ((columnsOf events).length : ℚ) ∧
        lev.left / 100 = (j : ℚ) / ((columnsOf events).length : ℚ) ∧
        0 ≤ lev.width / 100 ∧ lev.width / 100 ≤ 1 ∧
        0 ≤ lev.left / 100 ∧ lev.left / 100 ≤ 1 := by
  intro lev hmem
  have hmem2 : lev ∈ renderColumns (columnsOf events).length 0 (columnsOf events) := hmem
  obtain ⟨j, _, hjlt, hw, hleft⟩ :=
    renderColumns_mem (columnsOf events).length (columnsOf events) 0 lev hmem2
  have hpos : 0 < (columnsOf events).length := columnsOf_length_pos events hne
  have hq : (0 : ℚ) < ((columnsOf events).length : ℚ) := by exact_mod_cast hpos
  have hq0 : ((columnsOf events).length : ℚ) ≠ 0 := ne_of_gt hq
  have hjq : (j : ℚ) < ((columnsOf events).length : ℚ) := by
    exact_mod_cast (by omega : j < (columnsOf events).length)
  have h1 : (1 : ℚ) ≤ ((columnsOf events).length : ℚ) := by exact_mod_cast hpos
  refine ⟨j, by omega, hw, hleft, ?_, ?_, ?_, ?_, ?_, ?_⟩
  · rw [hw]; field_simp; ring
  · rw [hleft]; field_simp; ring
  · rw [hw]; positivity
  · rw [hw, div_div, div_le_one (by positivity)]
    nlinarith
  · rw [hleft]; positivity
  · rw [hleft, div_div, div_le_one (by positivity)]
    nlinarith [hjq.le]

/-- Evaluating `calculateEventLayout` on the three mutually overlapping
events: three columns, each event a third of the width as a percentage. -/
theorem c3_layout_eval :
    calculateEventLayout [c3E1, c3E2, c3E3] =
      [{ toCalendarEvent := c3E1, width := 100 / 3, left := 0 },
        { toCalendarEvent := c3E2, width := 100 / 3, left := 100 / 3 },
        { toCalendarEvent := c3E3, width := 100 / 3, left := 200 / 3 }] := by
  have hc : columnsOf [c3E1, c3E2, c3E3] = [[c3E1], [c3E2], [c3E3]] := by rfl
  show renderColumns (columnsOf [c3E1, c3E2, c3E3]).length 0 (columnsOf [c3E1, c3E2, c3E3]) = _
  rw [hc]
  simp [renderColumns]
  norm_num

/-- C3 counterexample: for three mutually overlapping events the produced
width is the percentage `100/3`, which is neither the claimed `1/3` nor
within `[0, 1]`. -/
theorem c3_counterexample :
    (calculateEventLayout [c3E1, c3E2, c3E3]).head? =
      some { toCalendarEvent := c3E1, width := 100 / 3, left := 0 } ∧
    ¬ ((100 : ℚ) / 3 ≤ 1) ∧ (100 : ℚ) / 3 ≠ 1 / 3 := by
  refine ⟨?_, by norm_num, by norm_num⟩
  rw [c3_layout_eval]
  rfl

/-- Concrete instantiation of `c3_layout_fractions` on the three-event
scenario: the first rendered event's width-fraction is within `[0, 1]`. -/
theorem c3_witness :
    0 ≤ ({ toCalendarEvent := c3E1, width := 100 / 3, left := 0 } : LayoutEvent).width / 100 ∧
    ({ toCalendarEvent := c3E1, width := 100 / 3, left := 0 } : LayoutEvent).width / 100 ≤ 1 := by
  obtain ⟨j, _, _, _, _, _, h0, h1, _, _⟩ :=
    c3_layout_fractions [c3E1, c3E2, c3E3] 0 (by decide) (by decide)
      { toCalendarEvent := c3E1, width := 100 / 3, left := 0 }
      (by rw [c3_layout_eval]; exact List.mem_cons_self _ _)
  exact ⟨h0, h1⟩

theorem le_clampStart (bS : ℕ) (ev : CalendarEvent) : bS ≤ clampStart bS ev := by
  unfold clampStart; split <;> omega

theorem clampStart_ge_start (bS : ℕ) (ev : CalendarEvent) :
    ev.startDate ≤ clampStart bS ev := by
  unfold clampStart; split <;> omega

theorem clampEnd_le (bE : ℕ) (ev : CalendarEvent) : clampEnd bE ev ≤ bE := by
  unfold clampEnd; split <;> omega

theorem clampEnd_le_end (bE : ℕ) (ev : CalendarEvent) :
    clampEnd bE ev ≤ ev.endDate := by
  unfold clampEnd; split <;> omega

theorem walk_nil (bS bE minD c : ℕ) : walk bS bE minD c [] = ([], c) := rfl

theorem walk_cons (bS bE minD c : ℕ) (ev : CalendarEvent) (rest : List CalendarEvent) :
    walk bS bE minD c (ev :: rest) =
      ((if c < clampStart bS ev ∧ minD ≤ clampStart bS ev - c then
          [freeSlotMk c (clampStart bS ev)]
        else []) ++
        (walk bS bE minD (if c < clampEnd bE ev then clampEnd bE ev else c) rest).1,
      (walk bS bE minD (if c < clampEnd bE ev then clampEnd bE ev else c) rest).2) := rfl

/-- Main invariant of the gap walk with minimum duration 0, on a sorted
chain of valid events that start before the window's end: the cursor only
advances and stays within the window, the emitted slots are ordered,
non-degenerate and bounded by the final cursor, and together with the
clamped event intervals they cover `[c, finalCursor)` exactly once. -/
theorem walk_spec (bS bE : ℕ) :
    ∀ (l : List CalendarEvent) (c : ℕ),
      bS ≤ c → c ≤ bE →
      (∀ ev ∈ l, c ≤ clampStart bS ev) →
      (∀ ev ∈ l, ev.startDate < ev.endDate) →
      (∀ ev ∈ l, ev.startDate < bE) →
      l.Pairwise (fun a b => a.endDate ≤ b.startDate) →
      c ≤ (walk bS bE 0 c l).2 ∧ (walk bS bE 0 c l).2 ≤ bE ∧
      (∀ s ∈ (walk bS bE 0 c l).1,
        c ≤ s.start ∧ s.start < s.stop ∧ s.stop ≤ (walk bS bE 0 c l).2) ∧
      (walk bS bE 0 c l).1.Pairwise (fun s1 s2 => s1.stop ≤ s2.start) ∧
      ∀ t : ℕ,
        (walk bS bE 0 c l).1.countP (inSlot t) + l.countP (inClampedEvent bS bE t) =
          if c ≤ t ∧ t < (walk bS bE 0 c l).2 then 1 else 0 := by
  intro l
  induction l with
  | nil =>
    intro c hc1 hc2 _ _ _ _
    refine ⟨le_refl c, hc2, by simp [walk_nil], by simp [walk_nil], ?_⟩
    intro t
    rw [walk_nil]
    simp only [List.countP_nil]
    rw [if_neg (by omega)]
  | cons ev rest ih =>
    intro c hc1 hc2 hmem hval hsb hpair
    have hvalev : ev.startDate < ev.endDate := hval ev (List.mem_cons_self ev rest)
    have hsbev : ev.startDate < bE := hsb ev (List.mem_cons_self ev rest)
    have hcse : c ≤ clampStart bS ev := hmem ev (List.mem_cons_self ev rest)
    have heE_le : clampEnd bE ev ≤ bE := clampEnd_le bE ev
    have heE_le_end : clampEnd bE ev ≤ ev.endDate := clampEnd_le_end bE ev
    have hnext_ge : c ≤ (if c < clampEnd bE ev then clampEnd bE ev else c) := by
      split <;> omega
    have hnext_le : (if c < clampEnd bE ev then clampEnd bE ev else c) ≤ bE := by
      split <;> omega
    have hmem2 : ∀ e2 ∈ rest,
        (if c < clampEnd bE ev then clampEnd bE ev else c) ≤ clampStart bS e2 := by
      intro e2 he2
      have h1 : c ≤ clampStart bS e2 := hmem e2 (List.mem_cons_of_mem _ he2)
      have h2 : ev.endDate ≤ e2.startDate := (List.pairwise_cons.mp hpair).1 e2 he2
      have h3 : e2.startDate ≤ clampStart bS e2 := clampStart_ge_start bS e2
      split <;> omega
    obtain ⟨ihA, ihB, ihC, ihD, ihE⟩ :=
      ih (if c < clampEnd bE ev then clampEnd bE ev else c)
        (le_trans hc1 hnext_ge) hnext_le hmem2
        (fun e2 he2 => hval e2 (List.mem_cons_of_mem _ he2))
        (fun e2 he2 => hsb e2 (List.mem_cons_of_mem _ he2))
        (List.pairwise_cons.mp hpair).2
    by_cases hlt : c < clampStart bS ev
    · -- a gap is emitted before the event
      have hbs_le : bS ≤ ev.startDate := by
        by_contra hcon
        push_neg at hcon
        rw [clampStart, if_pos hcon] at hlt
        omega
      have heS_eq : clampStart bS ev = ev.startDate := by
        rw [clampStart, if_neg (by omega)]
      have heSE : clampStart bS ev ≤ clampEnd bE ev := by
        rw [heS_eq, clampEnd]; split <;> omega
      have hnext_eq : (if c < clampEnd bE ev then clampEnd bE ev else c) = clampEnd bE ev := by
        rw [if_pos (by omega)]
      rw [walk_cons, if_pos ⟨hlt, Nat.zero_le _⟩]
      rw [hnext_eq] at ihA ihB ihC ihD ihE ⊢
      refine ⟨by omega, ihB, ?_, ?_, ?_⟩
      · intro s hs
        rcases List.mem_cons.mp hs with hh | hh
        · subst hh
          refine ⟨le_refl c, by simp [freeSlotMk]; omega, ?_⟩
          simp only [freeSlotMk]
          omega
        · obtain ⟨hA1, hA2, hA3⟩ := ihC s hh
          exact ⟨by omega, hA2, hA3⟩
      · rw [List.singleton_append, List.pairwise_cons]
        refine ⟨?_, ihD⟩
        intro s hs
        obtain ⟨hA1, _, _⟩ := ihC s hs
        simp only [freeSlotMk]
        omega
      · intro t
        have het := ihE t
        rw [List.singleton_append, List.countP_cons, List.countP_cons]
        simp only [inSlot, freeSlotMk, inClampedEvent, Bool.and_eq_true, decide_eq_true_eq]
        simp only [inSlot, inClampedEvent, Bool.and_eq_true, decide_eq_true_eq] at het
        split_ifs with h1 h2 h3 h4 h5 h6 h7 <;> split_ifs at het <;> omega
    · -- no gap: the cursor already reached the event's clamped start
      have hceq : c = clampStart bS ev := by omega
      rw [walk_cons, if_neg (by intro hcon; exact hlt hcon.1)]
      rw [List.nil_append]
      refine ⟨by omega, ihB, ?_, ihD, ?_⟩
      · intro s hs
        obtain ⟨hA1, hA2, hA3⟩ := ihC s hs
        exact ⟨by omega, hA2, hA3⟩
      · intro t
        have het := ihE t
        rw [List.countP_cons]
        simp only [inSlot, inClampedEvent, Bool.and_eq_true, decide_eq_true_eq] at het ⊢
        by_cases hce : c < clampEnd bE ev
        · rw [if_pos hce] at het ihA
          split_ifs with h1 h2 h3 <;> split_ifs at het <;> omega
        · rw [if_neg hce] at het ihA
          split_ifs with h1 h2 h3 <;> split_ifs at het <;> omega

/-- Assembly of the gap walk with its trailing slot: on a sorted
non-overlapping chain of valid events starting before the window's end, the
full free-slot list partitions the business window together with the clamped
event intervals. -/
theorem freeSlots_assemble (bS bE : ℕ) (hbb : bS ≤ bE) (l : List CalendarEvent)
    (F : List FreeTimeSlot)
    (hF : F = (walk bS bE 0 bS l).1 ++
      (if (walk bS bE 0 bS l).2 < bE ∧ 0 ≤ bE - (walk bS bE 0 bS l).2 then
        [freeSlotMk (walk bS bE 0 bS l).2 bE]
      else []))
    (hval : ∀ ev ∈ l, ev.startDate < ev.endDate)
    (hsb : ∀ ev ∈ l, ev.startDate < bE)
    (hchain : l.Pairwise fun a b => a.endDate ≤ b.startDate) :
    F.Pairwise (fun s1 s2 => ¬(s1.start < s2.stop ∧ s2.start < s1.stop)) ∧
    (∀ s ∈ F, bS ≤ s.start ∧ s.start < s.stop ∧ s.stop ≤ bE) ∧
    (∀ t, F.countP (inSlot t) + l.countP (inClampedEvent bS bE t) =
      if bS ≤ t ∧ t < bE then 1 else 0) := by
  obtain ⟨hA, hB, hC, hD, hE⟩ :=
    walk_spec bS bE l bS (le_refl _) hbb (fun ev _ => le_clampStart bS ev) hval hsb hchain
  subst hF
  refine ⟨?_, ?_, ?_⟩
  · rw [List.pairwise_append]
    refine ⟨hD.imp ?_, ?_, ?_⟩
    · intro s1 s2 h hcon
      omega
    · split
      · exact List.pairwise_singleton _ _
      · exact List.Pairwise.nil
    · intro s1 h1 s2 h2
      obtain ⟨hc1, hc2, hc3⟩ := hC s1 h1
      split at h2
      · rcases List.mem_singleton.mp h2 with rfl
        simp only [freeSlotMk]
        omega
      · simp at h2
  · intro s hs
    rcases List.mem_append.mp hs with hh | hh
    · obtain ⟨hc1, hc2, hc3⟩ := hC s hh
      exact ⟨hc1, hc2, le_trans hc3 hB⟩
    · split at hh
      · rcases List.mem_singleton.mp hh with rfl
        rename_i hcond
        simp only [freeSlotMk]
        omega
      · simp at hh
  · intro t
    rw [List.countP_append]
    have het := hE t
    by_cases hcf : (walk bS bE 0 bS l).2 < bE
    · rw [if_pos ⟨hcf, Nat.zero_le _⟩]
      have htr : List.countP (inSlot t) [freeSlotMk (walk bS bE 0 bS l).2 bE] =
          if (walk bS bE 0 bS l).2 ≤ t ∧ t < bE then 1 else 0 := by
        simp only [List.countP_cons, List.countP_nil, inSlot, freeSlotMk,
          Bool.and_eq_true, decide_eq_true_eq]
        split_ifs <;> omega
      rw [htr]
      split_ifs at het ⊢ <;> omega
    · rw [if_neg (by intro hcon; exact hcf hcon.1)]
      simp only [List.countP_nil]
      split_ifs at het ⊢ <;> omega

/-- C1 amended: with `minDurationMinutes = 0` and with the target day's
events valid (`start < end`), starting before 18:00, and pairwise
non-overlapping, `findFreeTimeSlots` returns pairwise non-overlapping slots
contained in the business window `[08:00, 18:00)` whose union with the
business-hours-clamped event intervals covers the window exactly once. -/
theorem c1_free_slots_partition (events : List CalendarEvent) (targetDate : ℕ)
    (hval : ∀ ev ∈ events.filter fun e => isSameDay e.startDate targetDate,
      ev.startDate < ev.endDate)
    (hsb : ∀ ev ∈ events.filter fun e => isSameDay e.startDate targetDate,
      ev.startDate < setHours targetDate 18)
    (hdisj : (events.filter fun e => isSameDay e.startDate targetDate).Pairwise
      fun a b => ¬(a.startDate < b.endDate ∧ b.startDate < a.endDate)) :
    (findFreeTimeSlots events targetDate 0).allFreeSlots.Pairwise
      (fun s1 s2 => ¬(s1.start < s2.stop ∧ s2.start < s1.stop)) ∧
    (∀ s ∈ (findFreeTimeSlots events targetDate 0).allFreeSlots,
      setHours targetDate 8 ≤ s.start ∧ s.start < s.stop ∧ s.stop ≤ setHours targetDate 18) ∧
    (∀ t, coverCount events targetDate 0 t =
      if setHours targetDate 8 ≤ t ∧ t < setHours targetDate 18 then 1 else 0) := by
  have hperm :=
    List.perm_insertionSort leStart (events.filter fun e => isSameDay e.startDate targetDate)
  have hsorted :=
    List.sorted_insertionSort leStart (events.filter fun e => isSameDay e.startDate targetDate)
  have hval2 : ∀ ev ∈ sortEventsByStartTime
      (events.filter fun e => isSameDay e.startDate targetDate), ev.startDate < ev.endDate :=
    fun ev h => hval ev (hperm.subset h)
  have hsb2 : ∀ ev ∈ sortEventsByStartTime
      (events.filter fun e => isSameDay e.startDate targetDate),
      ev.startDate < setHours targetDate 18 :=
    fun ev h => hsb ev (hperm.subset h)
  have hsymm : ∀ {x y : CalendarEvent},
      ¬(x.startDate < y.endDate ∧ y.startDate < x.endDate) →
      ¬(y.startDate < x.endDate ∧ x.startDate < y.endDate) :=
    fun hab hcon => hab ⟨hcon.2, hcon.1⟩
  have hdisj2 := (List.Perm.pairwise_iff hsymm hperm).mpr hdisj
  have hchain : (sortEventsByStartTime
      (events.filter fun e => isSameDay e.startDate targetDate)).Pairwise
      fun a b => a.endDate ≤ b.startDate := by
    refine List.Pairwise.imp_of_mem ?_ (hsorted.and hdisj2)
    intro a b ha hb hab
    have hab1 : a.startDate ≤ b.startDate := hab.1
    have hbv : b.startDate < b.endDate := hval2 b hb
    by_contra hcon
    push_neg at hcon
    exact hab.2 ⟨by omega, by omega⟩
  have hbb : setHours targetDate 8 ≤ setHours targetDate 18 := by unfold setHours; omega
  obtain ⟨P1, P2, P3⟩ := freeSlots_assemble (setHours targetDate 8) (setHours targetDate 18)
    hbb (sortEventsByStartTime (events.filter fun e => isSameDay e.startDate targetDate))
    ((findFreeTimeSlots events targetDate 0).allFreeSlots) rfl hval2 hsb2 hchain
  refine ⟨P1, P2, ?_⟩
  intro t
  have hcp : (events.filter fun e => isSameDay e.startDate targetDate).countP
      (inClampedEvent (setHours targetDate 8) (setHours targetDate 18) t) =
      (sortEventsByStartTime (events.filter fun e => isSameDay e.startDate targetDate)).countP
        (inClampedEvent (setHours targetDate 8) (setHours targetDate 18) t) :=
    (hperm.countP_eq _).symm
  unfold coverCount
  rw [hcp]
  exact P3 t

/-- C1 counterexample: with the source's default 60-minute minimum duration
the 30-minute gap `[10:00, 10:30)` is dropped, so the business-window point
10:15 is covered neither by a free slot nor by an event — not covered
exactly once as claimed. -/
theorem c1_counterexample :
    coverCount [c1A, c1B] 0 60 615 = 0 ∧
    setHours 0 8 ≤ 615 ∧ 615 < setHours 0 18 := by
  decide

/-- Concrete instantiation of `c1_free_slots_partition`: with a single
event 12:00-13:30 the point 10:00 is covered exactly once. -/
theorem c1_witness :
    coverCount [⟨"L", "Lunch", none, 720, 810, "", ""⟩] 0 0 600 = 1 := by
  have h := (c1_free_slots_partition [⟨"L", "Lunch", none, 720, 810, "", ""⟩] 0
    (by decide) (by decide) (by decide)).2.2 600
  rw [if_pos (by decide)] at h
  exact h

/-- Unconditional facts about the gap walk: the cursor never regresses, and
the emitted slots have weakly increasing start times bounded by the final
cursor. -/
theorem walk_starts (bS bE minD : ℕ) :
    ∀ (l : List CalendarEvent) (c : ℕ),
      c ≤ (walk bS bE minD c l).2 ∧
      (∀ s ∈ (walk bS bE minD c l).1, c ≤ s.start ∧ s.start ≤ (walk bS bE minD c l).2) ∧
      (walk bS bE minD c l).1.Pairwise (fun a b => a.start ≤ b.start) := by
  intro l
  induction l with
  | nil =>
    intro c
    exact ⟨le_refl _, by simp [walk_nil], by simp [walk_nil]⟩
  | cons ev rest ih =>
    intro c
    obtain ⟨ihA, ihB, ihC⟩ := ih (if c < clampEnd bE ev then clampEnd bE ev else c)
    have hnext_ge : c ≤ (if c < clampEnd bE ev then clampEnd bE ev else c) := by
      split <;> omega
    rw [walk_cons]
    by_cases hcond : c < clampStart bS ev ∧ minD ≤ clampStart bS ev - c
    · rw [if_pos hcond, List.singleton_append]
      refine ⟨by omega, ?_, ?_⟩
      · intro s hs
        rcases List.mem_cons.mp hs with rfl | hh
        · exact ⟨le_refl _, by simp only [freeSlotMk]; omega⟩
        · obtain ⟨h1, h2⟩ := ihB s hh
          exact ⟨by omega, h2⟩
      · rw [List.pairwise_cons]
        refine ⟨?_, ihC⟩
        intro s hs
        obtain ⟨h1, _⟩ := ihB s hs
        simp only [freeSlotMk]
        omega
    · rw [if_neg hcond, List.nil_append]
      exact ⟨by omega, fun s hs => ⟨by obtain ⟨h1, _⟩ := ihB s hs; omega, (ihB s hs).2⟩, ihC⟩

/-- The slots of `findFreeTimeSlots` are produced in chronological order of
start times. -/
theorem allFreeSlots_sorted_starts (events : List CalendarEvent) (targetDate minDuration : ℕ) :
    (findFreeTimeSlots events targetDate minDuration).allFreeSlots.Pairwise
      (fun a b => a.start ≤ b.start) := by
  obtain ⟨hA, hB, hC⟩ := walk_starts (setHours targetDate 8) (setHours targetDate 18) minDuration
    (sortEventsByStartTime (events.filter fun event => isSameDay event.startDate targetDate))
    (setHours targetDate 8)
  have hall : (findFreeTimeSlots events targetDate minDuration).allFreeSlots =
      (walk (setHours targetDate 8) (setHours targetDate 18) minDuration (setHours targetDate 8)
        (sortEventsByStartTime
          (events.filter fun event => isSameDay event.startDate targetDate))).1 ++
      (if (walk (setHours targetDate 8) (setHours targetDate 18) minDuration (setHours targetDate 8)
            (sortEventsByStartTime
              (events.filter fun event => isSameDay event.startDate targetDate))).2 <
            setHours targetDate 18 ∧
          minDuration ≤ setHours targetDate 18 -
            (walk (setHours targetDate 8) (setHours targetDate 18) minDuration
              (setHours targetDate 8)
              (sortEventsByStartTime
                (events.filter fun event => isSameDay event.startDate targetDate))).2 then
        [freeSlotMk
          (walk (setHours targetDate 8) (setHours targetDate 18) minDuration
            (setHours targetDate 8)
            (sortEventsByStartTime
              (events.filter fun event => isSameDay event.startDate targetDate))).2
          (setHours targetDate 18)]
      else []) := rfl
  rw [hall, List.pairwise_append]
  refine ⟨hC, ?_, ?_⟩
  · split
    · exact List.pairwise_singleton _ _
    · exact List.Pairwise.nil
  · intro a ha b hb
    obtain ⟨_, h2⟩ := hB a ha
    split at hb
    · rcases List.mem_singleton.mp hb with rfl
      simp only [freeSlotMk]
      omega
    · simp at hb

/-- The `reduce` of `findFreeTimeSlots` (lines 196-198) started on a first
incumbent: it returns a maximum-duration element, and on ties the
first-found (hence earliest-starting, the list being ordered) one. -/
theorem foldl_longest_spec :
    ∀ (slots : List FreeTimeSlot) (x : FreeTimeSlot),
      (∀ s ∈ slots, x.start ≤ s.start) →
      slots.Pairwise (fun a b => a.start ≤ b.start) →
      ∃ l, slots.foldl
          (fun longest current =>
            match longest with
            | none => some current
            | some l0 => if l0.duration < current.duration then some current else some l0)
          (some x) = some l ∧
        (l = x ∨ l ∈ slots) ∧
        ∀ s, (s = x ∨ s ∈ slots) →
          s.duration ≤ l.duration ∧ (s.duration = l.duration → l.start ≤ s.start) := by
  intro slots
  induction slots with
  | nil =>
    intro x _ _
    refine ⟨x, rfl, Or.inl rfl, ?_⟩
    rintro s (rfl | hs)
    · exact ⟨le_refl _, fun _ => le_refl _⟩
    · simp at hs
  | cons y ys ih =>
    intro x hx hpw
    have hy : x.start ≤ y.start := hx y (List.mem_cons_self y ys)
    have hys := (List.pairwise_cons.mp hpw).1
    have hpw2 := (List.pairwise_cons.mp hpw).2
    rw [List.foldl_cons]
    by_cases hd : x.duration < y.duration
    · show ∃ l, ys.foldl _ (if x.duration < y.duration then some y else some x) = some l ∧ _
      rw [if_pos hd]
      obtain ⟨l, hfold, hmem, hprop⟩ := ih y hys hpw2
      refine ⟨l, hfold, ?_, ?_⟩
      · rcases hmem with rfl | h
        · exact Or.inr (List.mem_cons_self _ _)
        · exact Or.inr (List.mem_cons_of_mem _ h)
      · rintro s (rfl | hs)
        · have hyl := (hprop y (Or.inl rfl)).1
          exact ⟨by omega, fun hEq => by omega⟩
        · rcases List.mem_cons.mp hs with rfl | hs2
          · exact hprop s (Or.inl rfl)
          · exact hprop s (Or.inr hs2)
    · show ∃ l, ys.foldl _ (if x.duration < y.duration then some y else some x) = some l ∧ _
      rw [if_neg hd]
      obtain ⟨l, hfold, hmem, hprop⟩ :=
        ih x (fun s hs => hx s (List.mem_cons_of_mem _ hs)) hpw2
      refine ⟨l, hfold, ?_, ?_⟩
      · rcases hmem with rfl | h
        · exact Or.inl rfl
        · exact Or.inr (List.mem_cons_of_mem _ h)
      · rintro s (rfl | hs)
        · exact hprop s (Or.inl rfl)
        · rcases List.mem_cons.mp hs with rfl | hs2
          · have hxl := (hprop x (Or.inl rfl)).1
            refine ⟨by omega, ?_⟩
            intro hEq
            have hxtie := (hprop x (Or.inl rfl)).2 (by omega)
            omega
          · exact hprop s (Or.inr hs2)

/-- `longestFreeBlock` is the left fold of the source's `reduce` over
`allFreeSlots` with a `null` seed. -/
theorem longestFreeBlock_eq (events : List CalendarEvent) (targetDate minDuration : ℕ) :
    (findFreeTimeSlots events targetDate minDuration).longestFreeBlock =
      (findFreeTimeSlots events targetDate minDuration).allFreeSlots.foldl
        (fun longest current =>
          match longest with
          | none => some current
          | some l0 => if l0.duration < current.duration then some current else some l0)
        none := rfl

/-- C7: `longestFreeBlock` is `none` exactly when there are no free slots;
otherwise it is a member of `allFreeSlots` of maximum duration, and on ties
the earliest-starting slot (the first found, since slots are chronological
and only strictly greater durations replace the incumbent). -/
theorem c7_longest_free_block (events : List CalendarEvent) (targetDate minDuration : ℕ) :
    ((findFreeTimeSlots events targetDate minDuration).longestFreeBlock = none ↔
      (findFreeTimeSlots events targetDate minDuration).allFreeSlots = []) ∧
    ∀ l, (findFreeTimeSlots events targetDate minDuration).longestFreeBlock = some l →
      l ∈ (findFreeTimeSlots events targetDate minDuration).allFreeSlots ∧
      ∀ s ∈ (findFreeTimeSlots events targetDate minDuration).allFreeSlots,
        s.duration ≤ l.duration ∧ (s.duration = l.duration → l.start ≤ s.start) := by
  have heq := longestFreeBlock_eq events targetDate minDuration
  have hsorted := allFreeSlots_sorted_starts events targetDate minDuration
  cases hfs : (findFreeTimeSlots events targetDate minDuration).allFreeSlots with
  | nil =>
    rw [hfs] at heq
    refine ⟨by simp [heq, hfs], ?_⟩
    intro l hl
    rw [heq] at hl
    cases hl
  | cons x rest =>
    rw [hfs] at heq hsorted
    obtain ⟨l, hfold, hmem, hprop⟩ := foldl_longest_spec rest x
      (List.pairwise_cons.mp hsorted).1 (List.pairwise_cons.mp hsorted).2
    have heq2 : (findFreeTimeSlots events targetDate minDuration).longestFreeBlock = some l := by
      rw [heq, List.foldl_cons]
      exact hfold
    refine ⟨by simp [heq2, hfs], ?_⟩
    intro l0 hl0
    rw [heq2] at hl0
    obtain rfl : l = l0 := by injection hl0
    constructor
    · rcases hmem with rfl | h
      · exact List.mem_cons_self _ _
      · exact List.mem_cons_of_mem _ h
    · intro s hs
      rcases List.mem_cons.mp hs with rfl | h
      · exact hprop s (Or.inl rfl)
      · exact hprop s (Or.inr h)

/-- Concrete instantiation of `c7_longest_free_block` on the single-event
12:00-13:30 day: the morning slot is no longer than the returned longest
block. -/
theorem c7_witness :
    (freeSlotMk 480 720).duration ≤ (freeSlotMk 810 1080).duration := by
  have h := (c7_longest_free_block [⟨"L", "Lunch", none, 720, 810, "", ""⟩] 0 60).2
    (freeSlotMk 810 1080) (by decide)
  exact (h.2 (freeSlotMk 480 720) (by decide)).1

/-- Swapping two adjacent valid events with equal start times does not
change the gap walk: their clamped starts agree, the final cursor is a
symmetric maximum, and at most one of the two positions can emit a gap,
identical in both orders. -/
theorem walk_swap (bS bE minD : ℕ) (x a : CalendarEvent) (r : List CalendarEvent) (c : ℕ)
    (hc : bS ≤ c) (hx : x.startDate < x.endDate) (ha : a.startDate < a.endDate)
    (heq : x.startDate = a.startDate) :
    walk bS bE minD c (x :: a :: r) = walk bS bE minD c (a :: x :: r) := by
  have hσ : clampStart bS x = clampStart bS a := by
    unfold clampStart; rw [heq]
  have hax : a.startDate < x.endDate := heq ▸ hx
  simp only [walk_cons]
  rw [hσ]
  have hn2 : (if (if c < clampEnd bE x then clampEnd bE x else c) < clampEnd bE a then
        clampEnd bE a else (if c < clampEnd bE x then clampEnd bE x else c)) =
      (if (if c < clampEnd bE a then clampEnd bE a else c) < clampEnd bE x then
        clampEnd bE x else (if c < clampEnd bE a then clampEnd bE a else c)) := by
    split_ifs <;> omega
  rw [hn2]
  have hE2 : (if (if c < clampEnd bE x then clampEnd bE x else c) < clampStart bS a ∧
        minD ≤ clampStart bS a - (if c < clampEnd bE x then clampEnd bE x else c) then
        [freeSlotMk (if c < clampEnd bE x then clampEnd bE x else c) (clampStart bS a)]
      else []) =
      (if (if c < clampEnd bE a then clampEnd bE a else c) < clampStart bS a ∧
        minD ≤ clampStart bS a - (if c < clampEnd bE a then clampEnd bE a else c) then
        [freeSlotMk (if c < clampEnd bE a then clampEnd bE a else c) (clampStart bS a)]
      else []) := by
    by_cases hcσ : c < clampStart bS a
    · have hbs_na : ¬ (a.startDate < bS) := by
        intro hcon
        unfold clampStart at hcσ
        rw [if_pos hcon] at hcσ
        omega
      have hσa : clampStart bS a = a.startDate := by
        unfold clampStart; rw [if_neg hbs_na]
      by_cases hsle : a.startDate ≤ bE
      · have hex : clampStart bS a ≤ clampEnd bE x := by
          rw [hσa]; unfold clampEnd; split <;> omega
        have hea : clampStart bS a ≤ clampEnd bE a := by
          rw [hσa]; unfold clampEnd; split <;> omega
        have hs1 : (if c < clampEnd bE x then clampEnd bE x else c) = clampEnd bE x :=
          if_pos (by omega)
        have hs2 : (if c < clampEnd bE a then clampEnd bE a else c) = clampEnd bE a :=
          if_pos (by omega)
        rw [hs1, hs2, if_neg (by rintro ⟨hcon, _⟩; omega),
          if_neg (by rintro ⟨hcon, _⟩; omega)]
      · push_neg at hsle
        have h1 : clampEnd bE x = bE := by unfold clampEnd; rw [if_pos (by omega)]
        have h2 : clampEnd bE a = bE := by unfold clampEnd; rw [if_pos (by omega)]
        rw [h1, h2]
    · have hge1 : c ≤ (if c < clampEnd bE x then clampEnd bE x else c) := by split <;> omega
      have hge2 : c ≤ (if c < clampEnd bE a then clampEnd bE a else c) := by split <;> omega
      rw [if_neg (by rintro ⟨hcon, _⟩; omega), if_neg (by rintro ⟨hcon, _⟩; omega)]
  rw [hE2]

/-- Moving a minimal-start valid event to the front of a sorted list of
valid events does not change the gap walk. -/
theorem walk_move_min (bS bE minD : ℕ) (a : CalendarEvent) (hav : a.startDate < a.endDate) :
    ∀ (l : List CalendarEvent) (c : ℕ), bS ≤ c →
      (∀ e ∈ l, e.startDate < e.endDate) →
      l.Sorted leStart →
      a ∈ l →
      (∀ e ∈ l, a.startDate ≤ e.startDate) →
      walk bS bE minD c l = walk bS bE minD c (a :: l.erase a) := by
  intro l
  induction l with
  | nil =>
    intro c _ _ _ hmem _
    simp at hmem
  | cons b t ih =>
    intro c hc hval hsort hmem hmin
    by_cases hab : b = a
    · subst hab
      rw [List.erase_cons_head]
    · have hat : a ∈ t := by
        rcases List.mem_cons.mp hmem with h | h
        · exact absurd h.symm hab
        · exact h
      have herase : (b :: t).erase a = b :: t.erase a :=
        List.erase_cons_tail (by simpa using hab)
      have hba : b.startDate = a.startDate :=
        le_antisymm ((List.pairwise_cons.mp hsort).1 a hat) (hmin b (List.mem_cons_self b t))
      have hrec := ih (if c < clampEnd bE b then clampEnd bE b else c)
        (by split <;> omega)
        (fun e he => hval e (List.mem_cons_of_mem _ he))
        (List.pairwise_cons.mp hsort).2
        hat
        (fun e he => hmin e (List.mem_cons_of_mem _ he))
      have hL : walk bS bE minD c (b :: t) = walk bS bE minD c (b :: a :: t.erase a) := by
        rw [walk_cons, hrec, ← walk_cons]
      rw [herase, hL]
      exact walk_swap bS bE minD b a (t.erase a) c hc
        (hval b (List.mem_cons_self b t)) hav hba

/-- The gap walk gives the same result on any two sorted-by-start
permutations of a list of valid events: ties between equal start times do
not matter. -/
theorem walk_perm (bS bE minD : ℕ) :
    ∀ (n : ℕ) (l1 l2 : List CalendarEvent) (c : ℕ), l1.length ≤ n →
      l1.Perm l2 → l1.Sorted leStart → l2.Sorted leStart →
      (∀ e ∈ l1, e.startDate < e.endDate) → bS ≤ c →
      walk bS bE minD c l1 = walk bS bE minD c l2 := by
  intro n
  induction n with
  | zero =>
    intro l1 l2 c hlen hperm _ _ _ _
    have h1 : l1 = [] := List.length_eq_zero.mp (by omega)
    subst h1
    have h2 : l2 = [] := List.perm_nil.mp hperm.symm
    subst h2
    rfl
  | succ n ih =>
    intro l1 l2 c hlen hperm hs1 hs2 hval hc
    cases l1 with
    | nil =>
      have h2 : l2 = [] := List.perm_nil.mp hperm.symm
      subst h2
      rfl
    | cons a t1 =>
      have ha2 : a ∈ l2 := hperm.subset (List.mem_cons_self a t1)
      have hmin2 : ∀ e ∈ l2, a.startDate ≤ e.startDate := by
        intro e he
        rcases List.mem_cons.mp (hperm.symm.subset he) with h | h
        · exact h ▸ le_refl _
        · exact (List.pairwise_cons.mp hs1).1 e h
      have hval2 : ∀ e ∈ l2, e.startDate < e.endDate :=
        fun e he => hval e (hperm.symm.subset he)
      have hava : a.startDate < a.endDate := hval a (List.mem_cons_self a t1)
      rw [walk_move_min bS bE minD a hava l2 c hc hval2 hs2 ha2 hmin2]
      have hrec := ih t1 (l2.erase a) (if c < clampEnd bE a then clampEnd bE a else c)
        (by simp at hlen; omega)
        (List.cons_perm_iff_perm_erase.mp hperm).2
        (List.pairwise_cons.mp hs1).2
        (List.Pairwise.sublist (List.erase_sublist a l2) hs2)
        (fun e he => hval e (List.mem_cons_of_mem _ he))
        (by split <;> omega)
      rw [walk_cons, walk_cons, hrec]

/-- `List.any` is permutation invariant. -/
theorem any_perm {α : Type} (p : α → Bool) {l1 l2 : List α} (h : l1.Perm l2) :
    l1.any p = l2.any p := by
  induction h with
  | nil => rfl
  | cons a _ ih => simp [List.any_cons, ih]
  | swap a b l =>
    simp only [List.any_cons]
    cases p a <;> cases p b <;> simp
  | trans _ _ ih1 ih2 => rw [ih1, ih2]

/-- `findRecurringWeeklyPattern` is permutation invariant in the event
list: only existential conflict tests over the whole list are used. -/
theorem recurring_perm (l1 l2 : List CalendarEvent) (h : l1.Perm l2) (referenceDate : ℕ) :
    findRecurringWeeklyPattern l1 referenceDate = findRecurringWeeklyPattern l2 referenceDate := by
  have hpc : ∀ d p, probeHasConflict l1 d p = probeHasConflict l2 d p := by
    intro d p
    unfold probeHasConflict
    exact any_perm _ h
  have hws : ∀ p, weekScan l1 (weekDays referenceDate) p =
      weekScan l2 (weekDays referenceDate) p := by
    intro p
    unfold weekScan
    congr 1
    funext st day
    rw [hpc]
  unfold findRecurringWeeklyPattern
  refine congrArg (fun f => List.filterMap f timeSlotProbes) (funext fun p => ?_)
  rw [hws]

/-- C8 amended: for valid events (`start < end`, the data-model invariant),
`findFreeTimeSlots` returns identical results on any two permutations of
the event list — every field of the result. -/
theorem c8_permutation_invariant (l1 l2 : List CalendarEvent) (targetDate minDuration : ℕ)
    (hperm : l1.Perm l2) (hval : ∀ e ∈ l1, e.startDate < e.endDate) :
    findFreeTimeSlots l1 targetDate minDuration = findFreeTimeSlots l2 targetDate minDuration := by
  have hpf : (l1.filter fun event => isSameDay event.startDate targetDate).Perm
      (l2.filter fun event => isSameDay event.startDate targetDate) := hperm.filter _
  have hps : (sortEventsByStartTime
      (l1.filter fun event => isSameDay event.startDate targetDate)).Perm
      (sortEventsByStartTime (l2.filter fun event => isSameDay event.startDate targetDate)) :=
    (List.perm_insertionSort leStart _).trans
      (hpf.trans (List.perm_insertionSort leStart _).symm)
  have hval1 : ∀ e ∈ sortEventsByStartTime
      (l1.filter fun event => isSameDay event.startDate targetDate),
      e.startDate < e.endDate :=
    fun e he =>
      hval e (List.mem_of_mem_filter ((List.perm_insertionSort leStart _).subset he))
  have hwalk := walk_perm (setHours targetDate 8) (setHours targetDate 18) minDuration
    (sortEventsByStartTime (l1.filter fun event => isSameDay event.startDate targetDate)).length
    (sortEventsByStartTime (l1.filter fun event => isSameDay event.startDate targetDate))
    (sortEventsByStartTime (l2.filter fun event => isSameDay event.startDate targetDate))
    (setHours targetDate 8) (le_refl _) hps
    (List.sorted_insertionSort leStart _) (List.sorted_insertionSort leStart _)
    hval1 (le_refl _)
  have hrec := recurring_perm l1 l2 hperm targetDate
  simp only [findFreeTimeSlots]
  rw [hwalk, hrec]

/-- Concrete instantiation of `c8_permutation_invariant` on two valid
events supplied in both orders. -/
theorem c8_witness :
    findFreeTimeSlots [c8P, c8Q] 0 60 = findFreeTimeSlots [c8Q, c8P] 0 60 :=
  c8_permutation_invariant [c8P, c8Q] [c8Q, c8P] 0 60 (List.Perm.swap c8Q c8P [])
    (by decide)

/-- C8 counterexample: with an invalid event (`start >= end`) in the list,
the two orders of the same events give different `allFreeSlots` — the claim
fails without the validity invariant. -/
theorem c8_counterexample :
    List.Perm [c8Bad, c8Good] [c8Good, c8Bad] ∧
    (findFreeTimeSlots [c8Bad, c8Good] 0 60).allFreeSlots ≠
      (findFreeTimeSlots [c8Good, c8Bad] 0 60).allFreeSlots := by
  refine ⟨List.Perm.swap c8Good c8Bad [], ?_⟩
  decide

/-- C2: on the failing input the source's mutual recursion between
`generateAlternativeTimeSlots` and `detectEventConflicts` never terminates:
the very first probe (08:00) conflicts with the existing event, so the
nested `detectEventConflicts` call runs the whole suggester again on
identical data — `generateFuel` returns `none` at every recursion depth,
i.e. the JavaScript call stack-overflows instead of returning a suggestion
list. -/
theorem c2_generate_diverges : ∀ fuel, generateFuel fuel c2Cand [c2Busy] none = none := by
  intro fuel
  induction fuel with
  | zero => rfl
  | succ f ih =>
    have hkey : (match generateFuel f c2Cand [c2Busy] none with
        | none => (none : Option (List ℕ))
        | some _ => genScanF (fun t => generateFuel f t [c2Busy] none) c2Cand [c2Busy] none
            (setHours c2Cand.startDate 18) (c2Cand.endDate - c2Cand.startDate)
            (List.tail (probeGrid (startOfDay c2Cand.startDate))) 3) = none := by
      rw [ih]
    exact hkey

end Cal
